import Mathlib

/-!
Verification of the 200-SMA dual-filter backtest dashboard (`src/app.py`).

The file shallowly embeds the computational pipeline of the script:
the per-bar crossing signal loop (app.py:253-270), the position loop
(app.py:276-288), the strategy equity loop (app.py:294-304), the risk
metrics (`calc_metrics`, app.py:68-79, and `calc_core`, app.py:316-325),
the formatting helpers (`fmt_pct`/`fmt_num`/`fmt_int`/`nz`,
app.py:89-111) together with the radar-chart report path (app.py:495),
and the script-level control flow around date validation and data
fetching (app.py:186-224).

Real-valued quantities (pandas float64 columns) are modelled as exact
rationals `ℚ`; the float NaN sentinel, where it matters (risk metrics
and formatting), is modelled explicitly by `Option` / a `PyVal` sum
type.  All definitions are executable.
-/

namespace App

/-! ### The joined price frame

After the inner join and the `dropna` on the two 200-day SMAs
(app.py:230-241), each row of `df` carries the four numeric columns
consumed by the signal loop.  A `Bar` is one such row. -/

/-- One row of the joined dataframe `df` after MA computation and
`dropna` (app.py:230-241): columns `Price_index`, `MA_index`,
`Price_stock`, `MA_stock`. -/
structure Bar where
  price_index : ℚ
  ma_index : ℚ
  price_stock : ℚ
  ma_stock : ℚ
deriving DecidableEq, Repr

/-- Condition `above_both` of the signal loop (app.py:257-259): both the
index and the stock close strictly above their 200-day SMAs. -/
def above_both (b : Bar) : Bool :=
  decide (b.price_index > b.ma_index) && decide (b.price_stock > b.ma_stock)

/-- Condition `below_both` of the signal loop (app.py:260-262): both the
index and the stock close strictly below their 200-day SMAs. -/
def below_both (b : Bar) : Bool :=
  decide (b.price_index < b.ma_index) && decide (b.price_stock < b.ma_stock)

/-! ### Signal loop (app.py:253-270)

The Python loop carries `above_both_prev` / `below_both_prev`
(initialised to `False`) across bars and writes `1`, `-1` or the
default `0` into the `Signal` column. -/

/-- Body of the signal loop with the loop-carried state
`above_both_prev`, `below_both_prev` made explicit (app.py:254-270). -/
def signalsAux (above_prev below_prev : Bool) : List Bar → List Int
  | [] => []
  | b :: rest =>
    (if above_both b && !above_prev then (1 : Int)
     else if below_both b && !below_prev then (-1 : Int) else 0)
      :: signalsAux (above_both b) (below_both b) rest

/-- The `Signal` column: the loop of app.py:253-270 run over the whole
frame, with both `prev` flags initially `False` (app.py:254-255). -/
def signals (bars : List Bar) : List Int :=
  signalsAux false false bars

/-- Per-bar closed form of the signal loop body: the signal emitted at a
bar given the previous bar (`none` on the first bar, where both `prev`
flags are still `False`). -/
def signalOf (prev : Option Bar) (b : Bar) : Int :=
  let ap := match prev with | none => false | some p => above_both p
  let bp := match prev with | none => false | some p => below_both p
  if above_both b && !ap then 1
  else if below_both b && !bp then -1 else 0

/-- Checks that consecutive entries of a (already `0`-filtered) signal
list strictly alternate in sign, as the spec's alternation property
demands. -/
def alternating : List Int → Bool
  | [] => true
  | [_] => true
  | x :: y :: rest => decide (x * y < 0) && alternating (y :: rest)

/-! ### Position loop (app.py:276-288) -/

/-- Initial position (app.py:276-278): `1` iff the entry condition holds
outright on the first bar of the frame.  The frame is guaranteed
nonempty upstream (app.py:242-244), so the `[]` case is unreachable. -/
def initPos : List Bar → Int
  | [] => 0
  | b :: _ => if above_both b then 1 else 0

/-- Body of the position loop (app.py:281-286) with the loop-carried
`current_pos` explicit. -/
def positionsAux (cur : Int) : List Int → List Int
  | [] => []
  | s :: rest =>
    let c := if s == 1 then (1 : Int) else if s == -1 then 0 else cur
    c :: positionsAux c rest

/-- The `Position` column (app.py:280-288): `positions = [current_pos]`
followed by the loop over `df["Signal"].iloc[1:]` — the signal at index
`0` is never read. -/
def positionsFromSignals (init : Int) : List Int → List Int
  | [] => []
  | _ :: rest => init :: positionsAux init rest

/-- The `Position` column as a function of the joined frame. -/
def fullPositions (bars : List Bar) : List Int :=
  positionsFromSignals (initPos bars) (signals bars)

/-! ### Strategy equity loop (app.py:294-302)

The loop walks the zipped `Price_stock` / `Position` columns; equity
starts at `1.0` and is multiplied by the day's price ratio exactly when
both the current and the previous bar's position are `1`. -/

/-- Body of the equity loop (app.py:295-300) with the previous row
(price, position) and the running equity explicit. -/
def equityAux (prevPrice : ℚ) (prevPos : Int) (prevEq : ℚ) :
    List (ℚ × Int) → List ℚ
  | [] => []
  | (p, s) :: rest =>
    let e := if s == 1 && prevPos == 1 then prevEq * (p / prevPrice) else prevEq
    e :: equityAux p s e rest

/-- The `Equity_Strategy` column (app.py:294-302) over the zipped
(`Price_stock`, `Position`) rows: `equity_strategy = [1.0]` and then the
loop from index `1`. -/
def equityStrategy : List (ℚ × Int) → List ℚ
  | [] => []
  | (p, s) :: rest => 1 :: equityAux p s 1 rest

/-- `Equity_Strategy` as a function of the joined frame. -/
def fullEquity (bars : List Bar) : List ℚ :=
  equityStrategy ((bars.map Bar.price_stock).zip (fullPositions bars))

/-! ### Length and indexing lemmas for the three loops -/

theorem signalsAux_length (bars : List Bar) :
    ∀ a b, (signalsAux a b bars).length = bars.length := by
  induction bars with
  | nil => intro a b; rfl
  | cons x xs ih => intro a b; simp [signalsAux, ih]

theorem signals_length (bars : List Bar) :
    (signals bars).length = bars.length :=
  signalsAux_length bars false false

theorem positionsAux_length (sigs : List Int) :
    ∀ cur, (positionsAux cur sigs).length = sigs.length := by
  induction sigs with
  | nil => intro cur; rfl
  | cons s rest ih => intro cur; simp [positionsAux, ih]

theorem positionsFromSignals_length (init : Int) (sigs : List Int) :
    (positionsFromSignals init sigs).length = sigs.length := by
  cases sigs with
  | nil => rfl
  | cons s rest => simp [positionsFromSignals, positionsAux_length]

theorem fullPositions_length (bars : List Bar) :
    (fullPositions bars).length = bars.length := by
  simp [fullPositions, positionsFromSignals_length, signals_length]

theorem equityAux_length (rows : List (ℚ × Int)) :
    ∀ pp ps pe, (equityAux pp ps pe rows).length = rows.length := by
  induction rows with
  | nil => intro pp ps pe; rfl
  | cons r rest ih =>
    intro pp ps pe
    obtain ⟨p, s⟩ := r
    simp [equityAux, ih]

theorem equityStrategy_length (rows : List (ℚ × Int)) :
    (equityStrategy rows).length = rows.length := by
  cases rows with
  | nil => rfl
  | cons r rest => obtain ⟨p, s⟩ := r; simp [equityStrategy, equityAux_length]

theorem fullEquity_length (bars : List Bar) :
    (fullEquity bars).length = bars.length := by
  simp [fullEquity, equityStrategy_length, List.length_zip,
    fullPositions_length]

theorem zip_getElem? {α β : Type} (as : List α) :
    ∀ (bs : List β) (i : Nat),
      (as.zip bs)[i]? =
        match as[i]?, bs[i]? with
        | some a, some b => some (a, b)
        | _, _ => none := by
  induction as with
  | nil => intro bs i; cases bs <;> cases i <;> simp
  | cons a as ih =>
    intro bs i
    cases bs with
    | nil => cases i <;> simp
    | cons b bs =>
      cases i with
      | zero => simp [List.zip_cons_cons]
      | succ j => simpa [List.zip_cons_cons] using ih bs j

theorem equityAux_step (rest : List (ℚ × Int)) :
    ∀ (c : ℚ × Int) (e0 : ℚ) (i : Nat), i < rest.length →
      ∃ a b ei, (c :: rest)[i]? = some a ∧ rest[i]? = some b ∧
        (e0 :: equityAux c.1 c.2 e0 rest)[i]? = some ei ∧
        (equityAux c.1 c.2 e0 rest)[i]? =
          some (if b.2 == 1 && a.2 == 1 then ei * (b.1 / a.1) else ei) := by
  induction rest with
  | nil => intro c e0 i h; exact absurd h (Nat.not_lt_zero i)
  | cons x rest ih =>
    intro c e0 i h
    obtain ⟨p, s⟩ := x
    cases i with
    | zero =>
      refine ⟨c, (p, s), e0, by simp, by simp, by simp, ?_⟩
      simp [equityAux]
    | succ j =>
      have hj : j < rest.length := by simpa using h
      obtain ⟨a, b, ei, ha, hb, he, hstep⟩ :=
        ih (p, s) (if s == 1 && c.2 == 1 then e0 * (p / c.1) else e0) j hj
      refine ⟨a, b, ei, ?_, ?_, ?_, ?_⟩
      · simpa using ha
      · simpa using hb
      · simpa [equityAux] using he
      · simpa [equityAux] using hstep

theorem equityStrategy_step (rows : List (ℚ × Int)) (i : Nat)
    (h : i + 1 < rows.length) :
    ∃ a b e, rows[i]? = some a ∧ rows[i + 1]? = some b ∧
      (equityStrategy rows)[i]? = some e ∧
      (equityStrategy rows)[i + 1]? =
        some (if b.2 == 1 && a.2 == 1 then e * (b.1 / a.1) else e) := by
  cases rows with
  | nil => simp at h
  | cons c rest =>
    obtain ⟨p, s⟩ := c
    have hi : i < rest.length := by simpa using h
    obtain ⟨a, b, ei, ha, hb, he, hstep⟩ := equityAux_step rest (p, s) 1 i hi
    refine ⟨a, b, ei, ha, by simpa using hb, ?_, ?_⟩
    · simpa [equityStrategy] using he
    · simpa [equityStrategy] using hstep

theorem signalsAux_closedForm (bars : List Bar) :
    ∀ p : Bar, signalsAux (above_both p) (below_both p) bars =
      List.zipWith signalOf (some p :: bars.map some) bars := by
  induction bars with
  | nil => intro p; rfl
  | cons x xs ih =>
    intro p
    simp only [signalsAux, List.map_cons, List.zipWith_cons_cons]
    congr 1
    exact ih x

/-! ### Access to positions and prices at an index -/

theorem fullEquity_eq (bars : List Bar) :
    fullEquity bars =
      equityStrategy ((bars.map Bar.price_stock).zip (fullPositions bars)) :=
  rfl

theorem row_at_index (bars : List Bar) (i : Nat) (bi : Bar) (u : Int)
    (hbi : bars[i]? = some bi)
    (hu : (fullPositions bars)[i]? = some u) :
    ((bars.map Bar.price_stock).zip (fullPositions bars))[i]? =
      some (bi.price_stock, u) := by
  have hz := zip_getElem? (bars.map Bar.price_stock) (fullPositions bars) i
  rw [List.getElem?_map, hbi, hu] at hz
  simpa using hz

/-! ### Claims C1, C2, C8, C9, C10 -/

/-- C1 (corrected): for every joined series and every `i`, writing `E` for
the strategy equity curve and `P` for the position column, the code
compounds the bar's return exactly when **both** the current and the
previous bar's position are Long: `E[i+1] = E[i] * (price[i+1]/price[i])`
if `P[i+1] = 1` and `P[i] = 1`, and `E[i+1] = E[i]` otherwise.  The
current bar's position does have an effect, contrary to the original
claim: on a bar whose exit signal sets the position to Flat, the bar's
return is not compounded even though `P[i] = 1` (see the
counterexample). -/
theorem C1_equity_compounds_iff_both_long (bars : List Bar) (i : Nat)
    (h : i + 1 < bars.length) (bi bj : Bar) (u v : Int)
    (hbi : bars[i]? = some bi) (hbj : bars[i + 1]? = some bj)
    (hu : (fullPositions bars)[i]? = some u)
    (hv : (fullPositions bars)[i + 1]? = some v) :
    ∃ e, (fullEquity bars)[i]? = some e ∧
      (fullEquity bars)[i + 1]? =
        some (if v == 1 && u == 1 then e * (bj.price_stock / bi.price_stock)
              else e) := by
  have hlen : i + 1 < ((bars.map Bar.price_stock).zip (fullPositions bars)).length := by
    simpa [List.length_zip, fullPositions_length] using h
  obtain ⟨a, b, e, ha, hb, he, hstep⟩ :=
    equityStrategy_step ((bars.map Bar.price_stock).zip (fullPositions bars)) i hlen
  have ha' : a = (bi.price_stock, u) := by
    have := row_at_index bars i bi u hbi hu
    rw [ha] at this
    exact Option.some.inj this
  have hb' : b = (bj.price_stock, v) := by
    have := row_at_index bars (i + 1) bj v hbj hv
    rw [hb] at this
    exact Option.some.inj this
  subst ha' hb'
  exact ⟨e, by simpa [fullEquity_eq] using he, by simpa [fullEquity_eq] using hstep⟩

/-- Joined series on which the original C1 fails: the first bar is Long
(both above the SMAs), the second bar crosses both below, emitting an
exit, so the previous position is Long but the current one is Flat. -/
def exC1 : List Bar := [⟨10, 5, 10, 5⟩, ⟨4, 5, 4, 5⟩]

/-- C1 counterexample: on `exC1`, `position[0] = Long`, yet
`equity[1] = equity[0] = 1` instead of the claimed
`equity[0] * (1 + return[1]) = 1 * (4/10) ≠ 1`: the current bar's
position (Flat, set by the same-bar exit) suppresses the compounding. -/
theorem C1_counterexample :
    (fullPositions exC1)[0]? = some 1 ∧
    (fullPositions exC1)[1]? = some 0 ∧
    (fullEquity exC1)[0]? = some 1 ∧
    (fullEquity exC1)[1]? = some 1 ∧
    (1 : ℚ) * (4 / 10) ≠ 1 := by
  refine ⟨by decide, by decide, by decide, by decide, by norm_num⟩

/-- Series for the C1 witness: Long on both bars, so the second bar's
return is compounded. -/
def exC1w : List Bar := [⟨10, 5, 10, 5⟩, ⟨10, 5, 20, 5⟩]

/-- Witness for `C1_equity_compounds_iff_both_long` on `exC1w`. -/
theorem C1_witness :
    ∃ e, (fullEquity exC1w)[0]? = some e ∧
      (fullEquity exC1w)[1]? =
        some (if (1 : Int) == 1 && (1 : Int) == 1 then
                e * ((20 : ℚ) / 10) else e) :=
  C1_equity_compounds_iff_both_long exC1w 0 (by decide)
    ⟨10, 5, 10, 5⟩ ⟨10, 5, 20, 5⟩ 1 1 (by decide) (by decide) (by decide) (by decide)

/-- C2 (corrected): the signal loop is characterised per bar by
`signalOf`: a bar fires Enter (`1`) iff `above_both` holds on it and did
not hold on the immediately preceding bar, and fires Exit (`-1`) iff
`below_both` holds on it and did not hold on the preceding bar (on the
first bar the previous-bar flags are taken as `False`).  Because the
two-series condition also admits a mixed state (neither `above_both` nor
`below_both`), consecutive nonzero signals need **not** alternate, contrary
to the original claim (see the counterexample). -/
theorem C2_signal_fires_on_condition_onset (bars : List Bar) :
    signals bars = List.zipWith signalOf (none :: bars.map some) bars := by
  cases bars with
  | nil => rfl
  | cons x xs =>
    simp only [signals, signalsAux, List.map_cons, List.zipWith_cons_cons]
    congr 1
    exact signalsAux_closedForm xs x

/-- Joined series on which the signal alternation fails: above-both,
then mixed (index above, stock below), then above-both again. -/
def exC2 : List Bar := [⟨10, 5, 10, 5⟩, ⟨10, 5, 4, 5⟩, ⟨10, 5, 10, 5⟩]

/-- C2 counterexample: `exC2` produces two consecutive Enter signals
with no Exit between them, so the emitted nonzero signals do not
alternate. -/
theorem C2_counterexample :
    signals exC2 = [1, 0, 1] ∧
    alternating ((signals exC2).filter (fun s => s != 0)) = false := by decide

/-- C8 (confirmed): whenever the previous bar's position is Flat (`0`),
the strategy equity is unchanged: `equity[i+1] = equity[i]`. -/
theorem C8_flat_prev_freezes_equity (bars : List Bar) (i : Nat)
    (h : i + 1 < bars.length)
    (hflat : (fullPositions bars)[i]? = some 0) :
    (fullEquity bars)[i + 1]? = (fullEquity bars)[i]? := by
  have hib : i < bars.length := Nat.lt_of_succ_lt h
  obtain ⟨bi, hbi⟩ : ∃ bi, bars[i]? = some bi :=
    ⟨bars[i], List.getElem?_eq_getElem hib⟩
  have hlen : i + 1 < ((bars.map Bar.price_stock).zip (fullPositions bars)).length := by
    simpa [List.length_zip, fullPositions_length] using h
  obtain ⟨a, b, e, ha, hb, he, hstep⟩ :=
    equityStrategy_step ((bars.map Bar.price_stock).zip (fullPositions bars)) i hlen
  have ha' : a = (bi.price_stock, 0) := by
    have hr := row_at_index bars i bi 0 hbi hflat
    rw [ha] at hr
    exact Option.some.inj hr
  subst ha'
  rw [fullEquity_eq, hstep, he]
  simp

/-- Series for the C8 witness: Long on the first bar, an exit on the
second, so the position before the third bar is Flat. -/
def exC8 : List Bar := [⟨10, 5, 10, 5⟩, ⟨4, 5, 4, 5⟩, ⟨3, 5, 6, 5⟩]

/-- Witness for `C8_flat_prev_freezes_equity` on `exC8` at `i = 1`. -/
theorem C8_witness : (fullEquity exC8)[2]? = (fullEquity exC8)[1]? :=
  C8_flat_prev_freezes_equity exC8 1 (by decide) (by decide)

/-- C9 (confirmed): the position of the first bar of the joined frame is
Long (`1`) exactly when the entry condition — both the index and the
stock strictly above their 200-day SMAs — holds outright on that bar. -/
theorem C9_initial_position_static (b : Bar) (rest : List Bar) :
    (fullPositions (b :: rest))[0]? =
      some (if b.price_index > b.ma_index ∧ b.price_stock > b.ma_stock
            then 1 else 0) := by
  have h0 : (fullPositions (b :: rest))[0]? = some (if above_both b then 1 else 0) := by
    simp only [fullPositions, signals, signalsAux, positionsFromSignals, initPos]
    simp
  have hd : above_both b =
      decide (b.price_index > b.ma_index ∧ b.price_stock > b.ma_stock) := by
    by_cases h1 : b.price_index > b.ma_index <;>
      by_cases h2 : b.price_stock > b.ma_stock <;> simp [above_both, h1, h2]
  rw [h0, hd]
  simp

/-- C10 (confirmed): the position loop reads only the signals from the
second bar onward (`df["Signal"].iloc[1:]`), so two runs whose signal
sequences differ only at index 0 yield identical position sequences. -/
theorem C10_first_signal_never_read (init s t : Int) (rest : List Int) :
    positionsFromSignals init (s :: rest) =
      positionsFromSignals init (t :: rest) := rfl

/-! ### Maximum drawdown (`calc_core`, app.py:322)

`mdd = 1 - (eq / eq.cummax()).min()`: the running maximum of the equity
curve, the pointwise ratio, and the minimum over the series. -/

/-- Running maximum with the maximum-so-far `m` explicit (the state of
pandas `cummax` after the first element). -/
def cummaxAux (m : ℚ) : List ℚ → List ℚ
  | [] => []
  | x :: xs => max m x :: cummaxAux (max m x) xs

/-- Pandas `eq.cummax()` (app.py:322). -/
def cummax : List ℚ → List ℚ
  | [] => []
  | x :: xs => x :: cummaxAux x xs

/-- Pandas `.min()` over a series: `none` models the NaN result on an
empty series. -/
def listMin : List ℚ → Option ℚ
  | [] => none
  | x :: xs => some (match listMin xs with | none => x | some m => min x m)

/-- `mdd = 1 - (eq / eq.cummax()).min()` (app.py:322). -/
def mdd (curve : List ℚ) : Option ℚ :=
  (listMin (List.zipWith (fun a b => a / b) curve (cummax curve))).map
    (fun m => 1 - m)

theorem listMin_mem : ∀ (xs : List ℚ) (m : ℚ), listMin xs = some m → m ∈ xs := by
  intro xs
  induction xs with
  | nil => intro m h; simp [listMin] at h
  | cons x xs ih =>
    intro m h
    simp only [listMin] at h
    cases hm : listMin xs with
    | none =>
      rw [hm] at h
      simp only [Option.some.injEq] at h
      subst h
      exact List.mem_cons_self x xs
    | some m' =>
      rw [hm] at h
      simp only [Option.some.injEq] at h
      subst h
      rcases min_choice x m' with hc | hc
      · rw [hc]; exact List.mem_cons_self x xs
      · rw [hc]; exact List.mem_cons_of_mem x (ih m' hm)

theorem cummaxAux_ratio_bounds (xs : List ℚ) :
    ∀ m, 0 < m → (∀ x ∈ xs, 0 < x) →
      ∀ r ∈ List.zipWith (fun a b => a / b) xs (cummaxAux m xs),
        0 < r ∧ r ≤ 1 := by
  induction xs with
  | nil => intro m _ _ r hr; simp [cummaxAux] at hr
  | cons x xs ih =>
    intro m hm hpos r hr
    simp only [cummaxAux, List.zipWith_cons_cons, List.mem_cons] at hr
    have hx : 0 < x := hpos x (List.mem_cons_self x xs)
    rcases hr with hr | hr
    · subst hr
      have hmx : 0 < max m x := lt_max_of_lt_right hx
      exact ⟨div_pos hx hmx, (div_le_one hmx).mpr (le_max_right m x)⟩
    · exact ih (max m x) (lt_max_of_lt_right hx)
        (fun y hy => hpos y (List.mem_cons_of_mem x hy)) r hr

theorem cummax_ratio_bounds (curve : List ℚ)
    (hpos : ∀ x ∈ curve, 0 < x) :
    ∀ r ∈ List.zipWith (fun a b => a / b) curve (cummax curve),
      0 < r ∧ r ≤ 1 := by
  cases curve with
  | nil => intro r hr; simp [cummax] at hr
  | cons x xs =>
    intro r hr
    simp only [cummax, List.zipWith_cons_cons, List.mem_cons] at hr
    have hx : 0 < x := hpos x (List.mem_cons_self x xs)
    rcases hr with hr | hr
    · subst hr
      rw [div_self (ne_of_gt hx)]
      exact ⟨one_pos, le_refl 1⟩
    · exact cummaxAux_ratio_bounds xs x hx
        (fun y hy => hpos y (List.mem_cons_of_mem x hy)) r hr

theorem cummaxAux_eq_self (xs : List ℚ) :
    ∀ m, List.Chain (· ≤ ·) m xs → cummaxAux m xs = xs := by
  induction xs with
  | nil => intro m _; rfl
  | cons x xs ih =>
    intro m hch
    rw [List.chain_cons] at hch
    simp only [cummaxAux, max_eq_right hch.1]
    rw [ih x hch.2]

theorem cummax_eq_self (curve : List ℚ)
    (h : List.Chain' (· ≤ ·) curve) : cummax curve = curve := by
  cases curve with
  | nil => rfl
  | cons x xs =>
    simp only [cummax]
    rw [cummaxAux_eq_self xs x h]

theorem zipWith_div_self_eq_one (xs : List ℚ) (hpos : ∀ x ∈ xs, 0 < x) :
    ∀ r ∈ List.zipWith (fun a b => a / b) xs xs, r = 1 := by
  induction xs with
  | nil => intro r hr; simp at hr
  | cons x xs ih =>
    intro r hr
    simp only [List.zipWith_cons_cons, List.mem_cons] at hr
    rcases hr with hr | hr
    · subst hr
      exact div_self (ne_of_gt (hpos x (List.mem_cons_self x xs)))
    · exact ih (fun y hy => hpos y (List.mem_cons_of_mem x hy)) r hr

theorem listMin_const_one (xs : List ℚ) :
    xs ≠ [] → (∀ x ∈ xs, x = 1) → listMin xs = some 1 := by
  induction xs with
  | nil => intro h; exact absurd rfl h
  | cons x xs ih =>
    intro _ hall
    have hx : x = 1 := hall x (List.mem_cons_self x xs)
    cases xs with
    | nil => simp [listMin, hx]
    | cons y ys =>
      have htail : listMin (y :: ys) = some 1 :=
        ih (by simp) (fun z hz => hall z (List.mem_cons_of_mem x hz))
      have hstep : listMin (x :: y :: ys) =
          some (match listMin (y :: ys) with | none => x | some m => min x m) := rfl
      rw [hstep, htail, hx]
      simp

/-- C7 (confirmed): for every nonempty, strictly positive equity
sequence, `mdd = 1 - min_i(equity[i] / cummax(equity)[i])` is defined
and lies in `[0, 1]`, and it equals `0` whenever the sequence is
monotonically non-decreasing. -/
theorem C7_mdd_in_unit_interval (curve : List ℚ) (hne : curve ≠ [])
    (hpos : ∀ x ∈ curve, 0 < x) :
    ∃ m, mdd curve = some m ∧ 0 ≤ m ∧ m ≤ 1 ∧
      (List.Chain' (· ≤ ·) curve → m = 0) := by
  obtain ⟨x, xs, rfl⟩ := List.exists_cons_of_ne_nil hne
  have hratios : List.zipWith (fun a b => a / b) (x :: xs) (cummax (x :: xs)) =
      (x / x) :: List.zipWith (fun a b => a / b) xs (cummaxAux x xs) := by
    simp [cummax]
  obtain ⟨r0, hr0⟩ : ∃ r0,
      listMin (List.zipWith (fun a b => a / b) (x :: xs) (cummax (x :: xs))) =
        some r0 := by
    rw [hratios]
    exact ⟨_, rfl⟩
  have hmem := listMin_mem _ r0 hr0
  obtain ⟨hrpos, hrle⟩ := cummax_ratio_bounds (x :: xs) hpos r0 hmem
  refine ⟨1 - r0, ?_, ?_, ?_, ?_⟩
  · simp [mdd, hr0]
  · linarith
  · linarith
  · intro hmono
    have hconst : ∀ r ∈ List.zipWith (fun a b => a / b) (x :: xs)
        (cummax (x :: xs)), r = 1 := by
      rw [cummax_eq_self (x :: xs) hmono]
      exact zipWith_div_self_eq_one (x :: xs) hpos
    have hone : listMin (List.zipWith (fun a b => a / b) (x :: xs)
        (cummax (x :: xs))) = some 1 := by
      refine listMin_const_one _ ?_ hconst
      rw [hratios]
      simp
    rw [hr0] at hone
    have : r0 = 1 := Option.some.inj hone
    rw [this]
    ring

/-- Equity curve for the C7 witness. -/
def exC7 : List ℚ := [1, 2, 2]

/-- Witness for `C7_mdd_in_unit_interval` on the monotone curve `exC7`. -/
theorem C7_witness :
    ∃ m, mdd exC7 = some m ∧ 0 ≤ m ∧ m ≤ 1 ∧
      (List.Chain' (· ≤ ·) exC7 → m = 0) :=
  C7_mdd_in_unit_interval exC7 (by decide) (by decide)

/-! ### Risk metrics: `calc_metrics` (app.py:68-79)

`calc_metrics` drops NaN entries, returns all-NaN for series of length
at most one, and computes `sortino = (avg / downside) * sqrt(252)` only
`if downside > 0 else np.nan`, where
`downside = daily[daily < 0].std()` is the pandas sample standard
deviation (`ddof=1`) of the negative returns.  A float is modelled by
`PyVal`; `downside` is modelled through its square, the sample variance
(`sqrt v > 0` iff `v > 0`, and pandas `std` of fewer than two values is
NaN, modelled as `none`).  The value of the ratio itself is the literal
formula of the source and carries an irrational `sqrt 252` factor; the
claim is settled on the definedness structure. -/

/-- A Python float that is either NaN or an exact numeric value. -/
inductive PyVal where
  | nan : PyVal
  | num : ℚ → PyVal
deriving DecidableEq, Repr

/-- Pandas `series.dropna()` (app.py:70). -/
def dropna (xs : List PyVal) : List ℚ :=
  xs.filterMap fun v => match v with | .nan => none | .num q => some q

/-- Pandas `series.mean()`. -/
def meanQ (xs : List ℚ) : ℚ := xs.sum / (xs.length : ℚ)

/-- Pandas `series.std()` with the default `ddof=1`, modelled through
its square: the sample variance; `none` models the NaN produced on
fewer than two samples. -/
def sampleVar (xs : List ℚ) : Option ℚ :=
  if xs.length < 2 then none
  else some ((xs.map (fun x => (x - meanQ xs) ^ 2)).sum / ((xs.length : ℚ) - 1))

/-- `daily[daily < 0]` (app.py:75): the negative entries of the return
series. -/
def downside_returns (xs : List ℚ) : List ℚ :=
  xs.filter fun x => decide (x < 0)

/-- Whether `calc_metrics` reports Sortino as NaN (app.py:71-72 and 78):
NaN when the dropna'd series has at most one entry, or when
`downside > 0` fails — i.e. when the sample std of the negative returns
is itself NaN (fewer than two of them) or not positive. -/
def sortino_is_nan (series : List PyVal) : Bool :=
  let daily := dropna series
  if daily.length ≤ 1 then true
  else
    match sampleVar (downside_returns daily) with
    | none => true
    | some v => decide (v ≤ 0)

theorem sampleVar_nonneg (xs : List ℚ) (v : ℚ)
    (h : sampleVar xs = some v) : 0 ≤ v := by
  unfold sampleVar at h
  by_cases hlen : xs.length < 2
  · simp [hlen] at h
  · simp only [hlen, if_false] at h
    have hv := Option.some.inj h
    have hsum : 0 ≤ (xs.map (fun x => (x - meanQ xs) ^ 2)).sum := by
      apply List.sum_nonneg
      intro a ha
      obtain ⟨x, _, rfl⟩ := List.mem_map.mp ha
      exact sq_nonneg _
    have hden : (0 : ℚ) ≤ (xs.length : ℚ) - 1 := by
      have : 2 ≤ xs.length := Nat.le_of_not_lt hlen
      have : (2 : ℚ) ≤ (xs.length : ℚ) := by exact_mod_cast this
      linarith
    rw [← hv]
    exact div_nonneg hsum hden

/-- C4 (corrected): Sortino is reported as NaN iff the return series
(after dropping NaNs) has at most one entry, **or** it contains fewer
than two negative returns, **or** its negative returns have zero sample
variance (all equal).  When defined it is
`mean(daily) / std(negative daily) * sqrt(252)` by construction
(app.py:78).  The original "NaN iff no negative returns" is refuted by
a series with exactly one negative return (see the counterexample). -/
theorem C4_sortino_nan_characterization (series : List PyVal) :
    sortino_is_nan series = true ↔
      ((dropna series).length ≤ 1 ∨
       (downside_returns (dropna series)).length < 2 ∨
       sampleVar (downside_returns (dropna series)) = some 0) := by
  have hdef : sortino_is_nan series =
      (if (dropna series).length ≤ 1 then true
       else match sampleVar (downside_returns (dropna series)) with
            | none => true
            | some v => decide (v ≤ 0)) := rfl
  rw [hdef]
  by_cases h1 : (dropna series).length ≤ 1
  · simp [h1]
  · rw [if_neg h1]
    cases hv : sampleVar (downside_returns (dropna series)) with
    | none =>
      have h2 : (downside_returns (dropna series)).length < 2 := by
        by_contra h2
        simp [sampleVar, h2] at hv
      simp [h1, h2]
    | some v =>
      have h2 : ¬ (downside_returns (dropna series)).length < 2 := by
        intro h2
        simp [sampleVar, h2] at hv
      have hnn := sampleVar_nonneg _ v hv
      simp only [h1, h2, false_or, decide_eq_true_eq, Option.some.injEq]
      constructor
      · intro hle
        exact le_antisymm hle hnn
      · intro he
        exact le_of_eq he

/-- Return series for the C4 counterexample: four valid entries and
exactly one negative return. -/
def seriesC4 : List PyVal := [.num 1, .num (-1), .num 2, .num 3]

/-- C4 counterexample: `seriesC4` contains a negative return, yet
Sortino is NaN (the pandas `std` of a single negative return is NaN),
refuting "NaN iff the series contains no negative returns". -/
theorem C4_counterexample :
    ¬ (sortino_is_nan seriesC4 = true ↔
        downside_returns (dropna seriesC4) = []) := by decide

/-! ### CAGR (`calc_core`, app.py:316-321)

`years_len = (df.index[-1] - df.index[0]).days / 365 if len(df) > 1 else 0`
and `cagr = (1 + final_ret) ** (1 / years_len) - 1 if years_len > 0 else
np.nan`, with `final_ret = final_eq - 1`.  The real power `b ** e` of the
source takes an irrational value in general; since the claim is about
which base and which exponent are used (and when the NaN branch fires),
the power is recorded symbolically as its `(base, exponent)` pair,
`none` modelling the NaN branch. -/

/-- `years_len` (app.py:316): elapsed calendar days between the first
and the last bar divided by 365, or `0` when the frame has at most one
row.  Dates are day ordinals, so the pandas timestamp difference
`.days` is the integer difference. -/
def years_len (firstDay lastDay : Int) (nBars : Nat) : ℚ :=
  if 1 < nBars then ((lastDay - firstDay : Int) : ℚ) / 365 else 0

/-- The CAGR of `calc_core` (app.py:319-321) as the `(base, exponent)`
pair of the power `(1 + final_ret) ** (1 / years_len)` (the code then
subtracts 1); `none` is the `np.nan` branch taken when
`years_len > 0` fails. -/
def cagr_power (finalEq : ℚ) (firstDay lastDay : Int) (nBars : Nat) :
    Option (ℚ × ℚ) :=
  let finalRet := finalEq - 1
  let yl := years_len firstDay lastDay nBars
  if 0 < yl then some (1 + finalRet, 1 / yl) else none

/-- C6 (confirmed): for a finished equity curve with at least two bars,
the CAGR branch of `calc_core` computes
`final_equity ** (365 / days) - 1` where `days` is the elapsed calendar
span between the first and the last bar date (not a trading-day count),
and yields the NaN sentinel exactly when that span is `≤ 0`. -/
theorem C6_cagr_annualized_by_calendar_days (finalEq : ℚ)
    (firstDay lastDay : Int) (nBars : Nat) (h2 : 2 ≤ nBars) :
    (lastDay - firstDay ≤ 0 →
      cagr_power finalEq firstDay lastDay nBars = none) ∧
    (0 < lastDay - firstDay →
      cagr_power finalEq firstDay lastDay nBars =
        some (finalEq, 365 / ((lastDay - firstDay : Int) : ℚ))) := by
  have hn : 1 < nBars := h2
  have hyl : years_len firstDay lastDay nBars =
      ((lastDay - firstDay : Int) : ℚ) / 365 := by
    simp [years_len, hn]
  constructor
  · intro hle
    have hq : ((lastDay - firstDay : Int) : ℚ) ≤ 0 := by exact_mod_cast hle
    have : ¬ (0 : ℚ) < years_len firstDay lastDay nBars := by
      rw [hyl]
      intro hpos
      have := (div_pos_iff.mp hpos)
      rcases this with ⟨ha, _⟩ | ⟨_, hb⟩
      · linarith
      · norm_num at hb
    simp [cagr_power, this]
  · intro hlt
    have hq : (0 : ℚ) < ((lastDay - firstDay : Int) : ℚ) := by exact_mod_cast hlt
    have hpos : (0 : ℚ) < years_len firstDay lastDay nBars := by
      rw [hyl]
      positivity
    have hpos2 : (0 : ℚ) < ((lastDay - firstDay : Int) : ℚ) / 365 := by
      positivity
    simp only [cagr_power, hyl]
    rw [if_pos hpos2]
    simp only [Option.some.injEq, Prod.mk.injEq]
    constructor
    · ring
    · rw [one_div_div]

/-- Witness for `C6_cagr_annualized_by_calendar_days`: a two-bar curve
spanning 10 calendar days. -/
theorem C6_witness :
    ((10 : Int) - 3 ≤ 0 → cagr_power 2 3 10 2 = none) ∧
    ((0 : Int) < 10 - 3 →
      cagr_power 2 3 10 2 = some (2, 365 / (((10 : Int) - 3 : Int) : ℚ))) :=
  C6_cagr_annualized_by_calendar_days 2 3 10 2 (by decide)

/-! ### Formatting helpers and the radar report path
(app.py:82-111 and app.py:492-496)

Each `fmt_*` helper wraps a CPython format expression in
`try/except`, returning the em-dash placeholder on an exception.
CPython's float formatting renders NaN as the string `nan` (with the
`%` suffix under the percent spec) and raises no exception, so the
except branch is **not** reached for a NaN float; `int(nan)` however
raises `ValueError`, so `fmt_int` does reach it.  The numeric branches
are rendered with exact decimal rounding of the rational model
(half-up; binary-float rounding artifacts and the thousands separators
of the `,` spec are not modelled — no claim depends on them). -/

/-- Floor of a rational, via flooring integer division. -/
def ratFloor (q : ℚ) : ℤ := Int.fdiv q.num (q.den : ℤ)

/-- Left-pads a digit string with zeros to width `n`. -/
def padZeros (s : String) (n : Nat) : String :=
  String.mk (List.replicate (n - s.length) '0') ++ s

/-- Fixed-point rendering of a rational with `d` decimal digits,
modelling CPython `format(v, ".{d}f")` for finite values. -/
def decimalString (q : ℚ) (d : Nat) : String :=
  let scale : ℚ := ((10 ^ d : ℕ) : ℚ)
  let n : ℤ := ratFloor (q * scale + 1 / 2)
  let sign := if n < 0 then "-" else ""
  let m : ℕ := n.natAbs
  let ip : ℕ := m / 10 ^ d
  let fp : ℕ := m % 10 ^ d
  if d = 0 then sign ++ toString ip
  else sign ++ toString ip ++ "." ++ padZeros (toString fp) d

/-- `fmt_pct` (app.py:89-93): `f"{v:.{d}%}"` in `try/except`.  CPython
formats a NaN float under the `%` spec as `"nan%"` without raising, so
the `"—"` branch is unreachable for NaN. -/
def fmt_pct (v : PyVal) (d : Nat) : String :=
  match v with
  | .nan => "nan%"
  | .num q => decimalString (q * 100) d ++ "%"

/-- `fmt_num` (app.py:96-100): `f"{v:.{d}f}"` in `try/except`; NaN
renders as `"nan"` without raising. -/
def fmt_num (v : PyVal) (d : Nat) : String :=
  match v with
  | .nan => "nan"
  | .num q => decimalString q d

/-- `fmt_int` (app.py:103-107): `f"{int(v):,}"` in `try/except`;
`int(nan)` raises `ValueError`, so the except branch returns `"—"`.
For finite values `int` truncates toward zero. -/
def fmt_int (v : PyVal) : String :=
  match v with
  | .nan => "—"
  | .num q => toString (Int.tdiv q.num (q.den : ℤ))

/-- `fmt_money` (app.py:82-86): `f"{v:,.0f} 元"`; NaN renders as
`"nan 元"` without raising. -/
def fmt_money (v : PyVal) : String :=
  match v with
  | .nan => "nan 元"
  | .num q => decimalString q 0 ++ " 元"

/-- `nz` (app.py:110-111): `float(np.nan_to_num(x, nan=default))` —
replaces NaN by `default` and keeps finite values (infinity clamping of
`nan_to_num` is irrelevant in this model). -/
def nz (x : PyVal) (default : ℚ) : ℚ :=
  match x with
  | .nan => default
  | .num q => q

/-- Python unary negation on a float: `-nan` is NaN. -/
def pyNeg : PyVal → PyVal
  | .nan => .nan
  | .num q => .num (-q)

/-- The radar-chart data row for the strategy (app.py:495):
`[nz(cagr), nz(sharpe), nz(sortino), nz(-mdd), nz(-vol)]` — every
undefined metric is silently replaced by `0` on this reporting path. -/
def radar_strategy (cagr sharpe sortino mddv vol : PyVal) : List ℚ :=
  [nz cagr 0, nz sharpe 0, nz sortino 0, nz (pyNeg mddv) 0, nz (pyNeg vol) 0]

/-- C3 (corrected): formatting an undefined (NaN) metric never raises
(the helpers are total), but only `fmt_int` renders the em-dash
placeholder: `fmt_pct` and `fmt_num` render CPython's `"nan%"` / `"nan"`
instead of `"—"`, and the radar-chart reporting path silently coerces
every NaN metric to `0` through `nz`. -/
theorem C3_nan_rendering (d : Nat) :
    fmt_pct PyVal.nan d = "nan%" ∧
    fmt_num PyVal.nan d = "nan" ∧
    fmt_int PyVal.nan = "—" ∧
    fmt_money PyVal.nan = "nan 元" ∧
    radar_strategy PyVal.nan PyVal.nan PyVal.nan PyVal.nan PyVal.nan =
      [0, 0, 0, 0, 0] :=
  ⟨rfl, rfl, rfl, rfl, rfl⟩

/-- C3 counterexample: `fmt_pct` applied to NaN does not produce the
em-dash placeholder, and `nz` (used by the radar report) coerces NaN
to `0`. -/
theorem C3_counterexample :
    fmt_pct PyVal.nan 2 ≠ "—" ∧ nz PyVal.nan 0 = 0 := by
  exact ⟨by decide, rfl⟩

/-! ### Script control flow: validation vs. fetching (app.py:186-228)

One Streamlit rerun is modelled as the list of externally visible
events it produces, in program order.  `get_symbol_range`
(app.py:161-167) downloads a symbol's full history via `yfinance` and
is called at app.py:187-188, before the button handler;
`load_price` (app.py:155-158) downloads the price frame and is called
at app.py:222-224, after the `start >= end` validation
(app.py:216-218), which is marked by `dateRangeChecked`.  Streamlit's
`st.cache_data` memoisation and the `strip()` of the ticker text input
are elided, and the trace stops after the two price downloads (the
analysis pipeline that follows is modelled separately above). -/

/-- Externally visible events of one rerun of the script. -/
inductive Event where
  | fetchRange : String → Event
  | fetchPrice : String → Event
  | showInfo : Event
  | showError : String → Event
  | dateRangeChecked : Event
  | halted : Event
deriving DecidableEq, Repr

/-- Event trace of one rerun (app.py:186-224): dates are day ordinals,
`pressed` is whether the back-test button was clicked. -/
def runScript (stock_code : String) (startD endD : Int) (pressed : Bool) :
    List Event :=
  let stock_symbol := if stock_code ≠ "" then stock_code ++ ".TW" else ""
  let pre := Event.fetchRange "^TWII" ::
    ((if stock_symbol ≠ "" then [Event.fetchRange stock_symbol] else []) ++
      [Event.showInfo])
  pre ++
    (if pressed then
      (if stock_symbol = "" then
        [Event.showError "⚠️ 請輸入股票代號", Event.halted]
      else
        Event.dateRangeChecked ::
          (if startD ≥ endD then
            [Event.showError "⚠️ 開始日期需早於結束日期", Event.halted]
          else [Event.fetchPrice "^TWII", Event.fetchPrice stock_symbol]))
    else [])

/-- Recognises a `load_price` download. -/
def isPriceFetch : Event → Bool
  | .fetchPrice _ => true
  | _ => false

/-- Recognises any remote history download (`get_symbol_range` or
`load_price`). -/
def isAnyFetch : Event → Bool
  | .fetchPrice _ => true
  | .fetchRange _ => true
  | _ => false

/-- Whether an event satisfying `p` occurs strictly before the first
date-range validation of the trace (or anywhere, if the trace has no
validation). -/
def fetchBefore (p : Event → Bool) : List Event → Bool
  | [] => false
  | e :: rest =>
    if e = Event.dateRangeChecked then false else p e || fetchBefore p rest

theorem append_tw_ne_empty (s : String) : s ++ ".TW" ≠ "" := by
  intro h
  have hlen : (s ++ ".TW").length = 0 := by rw [h]; rfl
  rw [String.length_append] at hlen
  have h3 : (".TW" : String).length = 3 := rfl
  omega

/-- C5 (corrected): the `start >= end` validation does precede every
price-frame download (`load_price`) of the run — no trace has a
`fetchPrice` before `dateRangeChecked` — and when the range is invalid
the run halts with a user-visible error and downloads no price frame.
The original claim's stronger "no fetch of remote data occurs prior to
this validation" is false: `get_symbol_range` downloads remote history
on every rerun before the button handler (see the counterexample). -/
theorem C5_price_fetch_after_validation (stock_code : String)
    (startD endD : Int) (pressed : Bool) :
    fetchBefore isPriceFetch (runScript stock_code startD endD pressed) = false ∧
    (pressed = true → stock_code ≠ "" → startD ≥ endD →
      (∀ sym, Event.fetchPrice sym ∉ runScript stock_code startD endD pressed) ∧
      Event.showError "⚠️ 開始日期需早於結束日期" ∈
        runScript stock_code startD endD pressed) := by
  constructor
  · by_cases hc : stock_code = "" <;> cases pressed <;>
      by_cases hs : startD ≥ endD <;>
        simp [runScript, fetchBefore, isPriceFetch, hc, hs, append_tw_ne_empty]
  · intro hp hc hs
    subst hp
    constructor
    · intro sym
      simp [runScript, hc, hs, append_tw_ne_empty]
    · simp [runScript, hc, hs, append_tw_ne_empty]

/-- Witness for `C5_price_fetch_after_validation`: a pressed run with a
valid ticker and an inverted date range. -/
theorem C5_witness :
    (∀ sym, Event.fetchPrice sym ∉ runScript "2330" 5 3 true) ∧
    Event.showError "⚠️ 開始日期需早於結束日期" ∈ runScript "2330" 5 3 true :=
  (C5_price_fetch_after_validation "2330" 5 3 true).2 rfl (by decide) (by decide)

/-- C5 counterexample: on the same run, a remote history download
(`get_symbol_range`) occurs strictly before the date-range validation,
so "no fetch of remote data occurs prior to this validation" fails. -/
theorem C5_counterexample :
    fetchBefore isAnyFetch (runScript "2330" 5 3 true) = true := by decide

end App